import Mathlib

/-
Verification of the arc-slice library: two immutable, cheaply-duplicable,
sub-sliceable sequence handles (a shared slice and a small shared slice
with an inline fast path), a split-from-either-end capability, and a
generic consuming iterator built on it.

Modelling conventions (shallow embedding of src/src/lib.rs):
- A reference-counted buffer Arc<[T]> is modelled as a List T; reference
  counting is not observable at the value level.
- A half-open Range<usize> is modelled as two Nat fields (start, stop).
- Rust slicing buf[start..stop] is modelled by the total function
  sliceRange; where Rust would panic on an out-of-bounds range, the model
  clamps, and indexing panics inside the split operations are modelled as
  a none result.  Theorems that depend on in-bounds ranges carry the
  representation invariant wfb as a hypothesis.
- An ArrayVec<T, CAP> is a List T whose length is at most CAP; the bound
  is part of the well-formedness predicate.
-/

namespace ArcSliceLib

/-- Rust buf[start..stop] as a total function on lists. -/
def sliceRange {T : Type} (buf : List T) (start stop : Nat) : List T :=
  (buf.drop start).take (stop - start)

/-- Inner representation of a shared slice: Empty, or a shared buffer with
a half-open range into it. -/
inductive ArcSliceInner (T : Type) where
  | Empty : ArcSliceInner T
  | Shared (buf : List T) (start stop : Nat) : ArcSliceInner T
deriving DecidableEq, Repr

/-- The public shared-slice handle. -/
structure ArcSlice (T : Type) where
  inner : ArcSliceInner T
deriving DecidableEq, Repr

namespace ArcSlice

/-- ArcSlice.raw_inner_slice: the visible element sequence. -/
def raw_inner_slice {T : Type} (s : ArcSlice T) : List T :=
  match s.inner with
  | .Empty => []
  | .Shared buf start stop => sliceRange buf start stop

/-- Logical length of the visible sequence. -/
def len {T : Type} (s : ArcSlice T) : Nat :=
  s.raw_inner_slice.length

/-- ArcSlice::arc_slice_split_first.  The Shared guard and the range
comparison follow the source; the indexed read of the first element is
modelled by head? so that the (unreachable under the invariant) panic on
an out-of-bounds range becomes none. -/
def arc_slice_split_first {T : Type} (s : ArcSlice T) :
    Option (T × ArcSlice T) :=
  match s.inner with
  | .Empty => none
  | .Shared buf start stop =>
    if start < stop then
      (sliceRange buf start stop).head?.map
        (fun e => (e, ⟨.Shared buf (start + 1) stop⟩))
    else
      none

/-- ArcSlice::arc_slice_split_last; the last() read is modelled by
getLast?. -/
def arc_slice_split_last {T : Type} (s : ArcSlice T) :
    Option (T × ArcSlice T) :=
  match s.inner with
  | .Empty => none
  | .Shared buf start stop =>
    if start < stop then
      (sliceRange buf start stop).getLast?.map
        (fun e => (e, ⟨.Shared buf start (stop - 1)⟩))
    else
      none

/-- From<[T; N]> for ArcSlice: Empty for the empty array, otherwise a
fresh buffer holding exactly the N elements with full range. -/
def fromArray {T : Type} (values : List T) : ArcSlice T :=
  if values.length = 0 then
    ⟨.Empty⟩
  else
    ⟨.Shared values 0 values.length⟩

/-- FromIterator for ArcSlice: Empty for an exhausted source, otherwise
one buffer holding the first element and the drained remainder. -/
def from_iter {T : Type} (source : List T) : ArcSlice T :=
  match source with
  | [] => ⟨.Empty⟩
  | first :: rest => ⟨.Shared (first :: rest) 0 (first :: rest).length⟩

/-- Default for ArcSlice. -/
def defaultHandle {T : Type} : ArcSlice T :=
  ⟨.Empty⟩

/-- Clone for ArcSliceInner, matched exactly as the source does. -/
def cloneInner {T : Type} : ArcSliceInner T → ArcSliceInner T
  | .Empty => .Empty
  | .Shared buf start stop => .Shared buf start stop

/-- Clone for ArcSlice. -/
def clone {T : Type} (s : ArcSlice T) : ArcSlice T :=
  ⟨cloneInner s.inner⟩

/-- PartialEq for ArcSlice: element-wise equality of the visible
sequences. -/
def eq {T : Type} [DecidableEq T] (a b : ArcSlice T) : Bool :=
  decide (a.raw_inner_slice = b.raw_inner_slice)

/-- Representation invariant: for a Shared handle the range is within the
buffer. -/
def wfb {T : Type} (s : ArcSlice T) : Bool :=
  match s.inner with
  | .Empty => true
  | .Shared buf start stop => decide (start ≤ stop ∧ stop ≤ buf.length)

end ArcSlice

/-- Inner representation of a small shared slice: an inline buffer of
bounded capacity, or a shared buffer.  The external range field lives in
the handle, not here. -/
inductive SmallArcSliceInner (T : Type) (CAP : Nat) where
  | Inline (buf : List T) : SmallArcSliceInner T CAP
  | Shared (buf : List T) : SmallArcSliceInner T CAP
deriving DecidableEq, Repr

/-- The public small-shared-slice handle: tagged storage plus an external
trim range. -/
structure SmallArcSlice (T : Type) (CAP : Nat) where
  inner : SmallArcSliceInner T CAP
  start : Nat
  stop : Nat
deriving DecidableEq, Repr

namespace SmallArcSlice

/-- The backing storage the external range trims. -/
def backing {T : Type} {CAP : Nat} (s : SmallArcSlice T CAP) : List T :=
  match s.inner with
  | .Inline buf => buf
  | .Shared buf => buf

/-- SmallArcSlice.raw_inner_slice: both variants are trimmed uniformly by
the external range. -/
def raw_inner_slice {T : Type} {CAP : Nat} (s : SmallArcSlice T CAP) :
    List T :=
  match s.inner with
  | .Inline buf => sliceRange buf s.start s.stop
  | .Shared buf => sliceRange buf s.start s.stop

/-- Logical length of the visible sequence. -/
def len {T : Type} {CAP : Nat} (s : SmallArcSlice T CAP) : Nat :=
  s.raw_inner_slice.length

/-- SmallArcSlice::arc_slice_split_first: keeps the inner storage, bumps
the range start. -/
def arc_slice_split_first {T : Type} {CAP : Nat} (s : SmallArcSlice T CAP) :
    Option (T × SmallArcSlice T CAP) :=
  if s.start < s.stop then
    s.raw_inner_slice.head?.map
      (fun e => (e, ⟨s.inner, s.start + 1, s.stop⟩))
  else
    none

/-- SmallArcSlice::arc_slice_split_last: keeps the inner storage, lowers
the range stop. -/
def arc_slice_split_last {T : Type} {CAP : Nat} (s : SmallArcSlice T CAP) :
    Option (T × SmallArcSlice T CAP) :=
  if s.start < s.stop then
    s.raw_inner_slice.getLast?.map
      (fun e => (e, ⟨s.inner, s.start, s.stop - 1⟩))
  else
    none

/-- From<[T; N]> for SmallArcSlice: inline when N fits the capacity,
shared otherwise; range is always full. -/
def fromArray {T : Type} (CAP : Nat) (values : List T) :
    SmallArcSlice T CAP :=
  if values.length ≤ CAP then
    ⟨.Inline values, 0, values.length⟩
  else
    ⟨.Shared values, 0, values.length⟩

/-- The FromIterator loop of SmallArcSlice: try_push each drained element
into the array-vec; on overflow build one shared buffer from the
collected elements, the overflow element and the remaining source. -/
def from_iter_loop {T : Type} (CAP : Nat) (array : List T)
    (source : List T) : SmallArcSlice T CAP :=
  match source with
  | [] => ⟨.Inline array, 0, array.length⟩
  | value :: iter =>
    if array.length < CAP then
      from_iter_loop CAP (array ++ [value]) iter
    else
      let arc := array ++ value :: iter
      ⟨.Shared arc, 0, arc.length⟩

/-- FromIterator for SmallArcSlice. -/
def from_iter {T : Type} (CAP : Nat) (source : List T) :
    SmallArcSlice T CAP :=
  from_iter_loop CAP [] source

/-- Default for SmallArcSlice: a fresh empty inline buffer with range
0..0. -/
def defaultHandle {T : Type} (CAP : Nat) : SmallArcSlice T CAP :=
  ⟨.Inline [], 0, 0⟩

/-- Derived Clone for SmallArcSlice: clones the tagged storage and the
range. -/
def clone {T : Type} {CAP : Nat} (s : SmallArcSlice T CAP) :
    SmallArcSlice T CAP :=
  ⟨s.inner, s.start, s.stop⟩

/-- PartialEq between small slices of possibly different capacities:
element-wise equality of the visible sequences. -/
def eq {T : Type} [DecidableEq T] {CAP1 CAP2 : Nat}
    (a : SmallArcSlice T CAP1) (b : SmallArcSlice T CAP2) : Bool :=
  decide (a.raw_inner_slice = b.raw_inner_slice)

/-- True when the handle is in the Inline variant. -/
def isInline {T : Type} {CAP : Nat} (s : SmallArcSlice T CAP) : Bool :=
  match s.inner with
  | .Inline _ => true
  | .Shared _ => false

/-- Representation invariant: the range is within the backing storage and
an inline buffer respects the capacity. -/
def wfb {T : Type} {CAP : Nat} (s : SmallArcSlice T CAP) : Bool :=
  match s.inner with
  | .Inline buf =>
    decide (s.start ≤ s.stop ∧ s.stop ≤ buf.length ∧ buf.length ≤ CAP)
  | .Shared buf =>
    decide (s.start ≤ s.stop ∧ s.stop ≤ buf.length)

end SmallArcSlice

/-- The split capability trait ArcSliceSplit. -/
class ArcSliceSplit (S : Type) (Item : outParam Type) where
  split_first : S → Option (Item × S)
  split_last : S → Option (Item × S)

instance {T : Type} : ArcSliceSplit (ArcSlice T) T where
  split_first := ArcSlice.arc_slice_split_first
  split_last := ArcSlice.arc_slice_split_last

instance {T : Type} {CAP : Nat} : ArcSliceSplit (SmallArcSlice T CAP) T where
  split_first := SmallArcSlice.arc_slice_split_first
  split_last := SmallArcSlice.arc_slice_split_last

/-- The generic consuming iterator: a wrapped handle. -/
structure ArcSliceIter (S : Type) where
  slice : S

/-- Iterator::next for ArcSliceIter: split off the first element; the
remainder replaces the wrapped handle. -/
def ArcSliceIter.next {S Item : Type} [inst : ArcSliceSplit S Item]
    (it : ArcSliceIter S) : Option (Item × ArcSliceIter S) :=
  match @ArcSliceSplit.split_first S Item inst it.slice with
  | some (e, rest) => some (e, ⟨rest⟩)
  | none => none

/-- Run the iterator for at most fuel steps, collecting the yielded
elements and the final iterator state. -/
def iterRun {S Item : Type} [ArcSliceSplit S Item] :
    Nat → ArcSliceIter S → List Item × ArcSliceIter S
  | 0, it => ([], it)
  | fuel + 1, it =>
    match it.next with
    | none => ([], it)
    | some (e, it2) =>
      let r := iterRun fuel it2
      (e :: r.1, r.2)

/-- IntoIterator for ArcSlice. -/
def ArcSlice.into_iter {T : Type} (s : ArcSlice T) :
    ArcSliceIter (ArcSlice T) :=
  ⟨s⟩

/-- IntoIterator for SmallArcSlice. -/
def SmallArcSlice.into_iter {T : Type} {CAP : Nat} (s : SmallArcSlice T CAP) :
    ArcSliceIter (SmallArcSlice T CAP) :=
  ⟨s⟩

/-- Lexicographic comparison of lists by an element comparator,
modelling Ord for Rust slices. -/
def listCmp {T : Type} (c : T → T → Ordering) : List T → List T → Ordering
  | [], [] => .eq
  | [], _ :: _ => .lt
  | _ :: _, [] => .gt
  | a :: as, b :: bs =>
    match c a b with
    | .eq => listCmp c as bs
    | o => o

/-- The data a slice feeds into a hasher: its length followed by the
per-element hash values. -/
def hashStream {T : Type} (h : T → Nat) (l : List T) : List Nat :=
  l.length :: l.map h

/-- Ord for ArcSlice: compares the visible sequences. -/
def ArcSlice.cmp {T : Type} (c : T → T → Ordering) (a b : ArcSlice T) :
    Ordering :=
  listCmp c a.raw_inner_slice b.raw_inner_slice

/-- Hash for ArcSlice: hashes the visible sequence. -/
def ArcSlice.hashModel {T : Type} (h : T → Nat) (s : ArcSlice T) :
    List Nat :=
  hashStream h s.raw_inner_slice

/-- PartialOrd and Ord between small slices of possibly different
capacities: compares the visible sequences. -/
def SmallArcSlice.cmp {T : Type} (c : T → T → Ordering) {CAP1 CAP2 : Nat}
    (a : SmallArcSlice T CAP1) (b : SmallArcSlice T CAP2) : Ordering :=
  listCmp c a.raw_inner_slice b.raw_inner_slice

/-- Hash for SmallArcSlice: hashes the visible sequence. -/
def SmallArcSlice.hashModel {T : Type} (h : T → Nat) {CAP : Nat}
    (s : SmallArcSlice T CAP) : List Nat :=
  hashStream h s.raw_inner_slice

section SliceRangeLemmas

variable {T : Type}

lemma sliceRange_length {buf : List T} {st sp : Nat}
    (h1 : st ≤ sp) (h2 : sp ≤ buf.length) :
    (sliceRange buf st sp).length = sp - st := by
  unfold sliceRange
  rw [List.length_take, List.length_drop]
  omega

lemma sliceRange_empty_of_ge {buf : List T} {st sp : Nat} (h : sp ≤ st) :
    sliceRange buf st sp = [] := by
  unfold sliceRange
  have : sp - st = 0 := by omega
  rw [this, List.take_zero]

lemma sliceRange_head_cons {buf : List T} {st sp : Nat} {e : T}
    (h : (sliceRange buf st sp).head? = some e) :
    sliceRange buf st sp = e :: sliceRange buf (st + 1) sp := by
  unfold sliceRange at h ⊢
  rcases hd : buf.drop st with _ | ⟨x, xs⟩
  · rw [hd] at h; simp at h
  · rw [hd] at h
    rcases hsp : sp - st with _ | k
    · rw [hsp] at h; simp at h
    · rw [hsp] at h
      rw [List.take_succ_cons, List.head?_cons] at h
      have hxe : x = e := by injection h
      have hxs : buf.drop (st + 1) = xs := by
        have ht := List.tail_drop buf st
        rw [hd] at ht
        exact ht.symm
      have hk : sp - (st + 1) = k := by omega
      rw [hxs, hk, List.take_succ_cons, hxe]

lemma sliceRange_getLast_snoc {buf : List T} {st sp : Nat} {e : T}
    (h1 : st < sp) (h2 : sp ≤ buf.length)
    (h : (sliceRange buf st sp).getLast? = some e) :
    sliceRange buf st sp = sliceRange buf st (sp - 1) ++ [e] := by
  obtain ⟨ys, hys⟩ := List.getLast?_eq_some_iff.mp h
  have hlen : (sliceRange buf st sp).length = sp - st :=
    sliceRange_length (Nat.le_of_lt h1) h2
  have hdl : ys = (sliceRange buf st sp).dropLast := by
    rw [hys, List.dropLast_concat]
  have hys2 : ys = sliceRange buf st (sp - 1) := by
    rw [hdl, List.dropLast_eq_take, hlen]
    unfold sliceRange
    rw [List.take_take]
    congr 1
    omega
  rw [hys, hys2]

end SliceRangeLemmas

section ArcSliceSplitLemmas

variable {T : Type}

lemma ArcSlice.split_first_eq_none_iff (s : ArcSlice T) :
    s.arc_slice_split_first = none ↔ s.raw_inner_slice = [] := by
  unfold arc_slice_split_first raw_inner_slice
  rcases s with ⟨inner⟩
  rcases inner with _ | ⟨buf, st, sp⟩
  · simp
  · by_cases h : st < sp
    · simp [h]
    · have hemp : sliceRange buf st sp = [] :=
        sliceRange_empty_of_ge (by omega)
      simp [h, hemp]

lemma ArcSlice.split_last_eq_none_iff (s : ArcSlice T) :
    s.arc_slice_split_last = none ↔ s.raw_inner_slice = [] := by
  unfold arc_slice_split_last raw_inner_slice
  rcases s with ⟨inner⟩
  rcases inner with _ | ⟨buf, st, sp⟩
  · simp
  · by_cases h : st < sp
    · simp [h]
    · have hemp : sliceRange buf st sp = [] :=
        sliceRange_empty_of_ge (by omega)
      simp [h, hemp]

lemma ArcSlice.split_first_some_spec {s : ArcSlice T} {e : T}
    {rest : ArcSlice T} (h : s.arc_slice_split_first = some (e, rest)) :
    s.raw_inner_slice = e :: rest.raw_inner_slice := by
  unfold arc_slice_split_first at h
  rcases s with ⟨inner⟩
  rcases inner with _ | ⟨buf, st, sp⟩
  · simp at h
  · by_cases hlt : st < sp
    · simp only [hlt, if_true, Option.map_eq_some'] at h
      obtain ⟨a, ha, hpair⟩ := h
      have he : a = e := by
        have := congrArg Prod.fst hpair
        simpa using this
      have hrest : rest = ⟨.Shared buf (st + 1) sp⟩ := by
        have := congrArg Prod.snd hpair
        simpa using this.symm
      subst he
      subst hrest
      exact sliceRange_head_cons ha
    · simp [hlt] at h

lemma ArcSlice.split_last_some_spec {s : ArcSlice T} {e : T}
    {rest : ArcSlice T} (h : s.arc_slice_split_last = some (e, rest))
    (hwf : s.wfb = true) :
    s.raw_inner_slice = rest.raw_inner_slice ++ [e] := by
  unfold arc_slice_split_last at h
  rcases s with ⟨inner⟩
  rcases inner with _ | ⟨buf, st, sp⟩
  · simp at h
  · by_cases hlt : st < sp
    · simp only [hlt, if_true, Option.map_eq_some'] at h
      obtain ⟨a, ha, hpair⟩ := h
      have he : a = e := by
        have := congrArg Prod.fst hpair
        simpa using this
      have hrest : rest = ⟨.Shared buf st (sp - 1)⟩ := by
        have := congrArg Prod.snd hpair
        simpa using this.symm
      subst he
      subst hrest
      have hsp : sp ≤ buf.length := by
        have := of_decide_eq_true hwf
        exact this.2
      exact sliceRange_getLast_snoc hlt hsp ha
    · simp [hlt] at h

end ArcSliceSplitLemmas

section SmallSplitLemmas

variable {T : Type} {CAP : Nat}

lemma SmallArcSlice.raw_eq (s : SmallArcSlice T CAP) :
    s.raw_inner_slice = sliceRange s.backing s.start s.stop := by
  rcases s with ⟨inner, st, sp⟩
  cases inner <;> rfl

lemma SmallArcSlice.backing_mk (inner : SmallArcSliceInner T CAP)
    (a b : Nat) :
    (SmallArcSlice.mk inner a b).backing =
      (SmallArcSlice.mk inner 0 0).backing := by
  cases inner <;> rfl

lemma SmallArcSlice.wfb_bounds {s : SmallArcSlice T CAP}
    (h : s.wfb = true) :
    s.start ≤ s.stop ∧ s.stop ≤ s.backing.length := by
  rcases s with ⟨inner, st, sp⟩
  cases inner with
  | Inline buf =>
    have := of_decide_eq_true h
    exact ⟨this.1, this.2.1⟩
  | Shared buf =>
    have := of_decide_eq_true h
    exact this

lemma SmallArcSlice.small_split_first_eq_none_iff (s : SmallArcSlice T CAP) :
    s.arc_slice_split_first = none ↔ s.raw_inner_slice = [] := by
  unfold arc_slice_split_first
  by_cases h : s.start < s.stop
  · simp [h]
  · have hemp : s.raw_inner_slice = [] := by
      rw [SmallArcSlice.raw_eq]
      exact sliceRange_empty_of_ge (by omega)
    simp [h, hemp]

lemma SmallArcSlice.small_split_last_eq_none_iff (s : SmallArcSlice T CAP) :
    s.arc_slice_split_last = none ↔ s.raw_inner_slice = [] := by
  unfold arc_slice_split_last
  by_cases h : s.start < s.stop
  · simp [h]
  · have hemp : s.raw_inner_slice = [] := by
      rw [SmallArcSlice.raw_eq]
      exact sliceRange_empty_of_ge (by omega)
    simp [h, hemp]

lemma SmallArcSlice.small_split_first_some_spec {s rest : SmallArcSlice T CAP}
    {e : T} (h : s.arc_slice_split_first = some (e, rest)) :
    s.raw_inner_slice = e :: rest.raw_inner_slice ∧
    rest.inner = s.inner ∧ rest.start = s.start + 1 ∧ rest.stop = s.stop := by
  unfold arc_slice_split_first at h
  by_cases hlt : s.start < s.stop
  · simp only [hlt, if_true, Option.map_eq_some'] at h
    obtain ⟨a, ha, hpair⟩ := h
    have he : a = e := by
      have := congrArg Prod.fst hpair
      simpa using this
    have hrest : rest = ⟨s.inner, s.start + 1, s.stop⟩ := by
      have := congrArg Prod.snd hpair
      simpa using this.symm
    subst he
    refine ⟨?_, by rw [hrest], by rw [hrest], by rw [hrest]⟩
    rw [SmallArcSlice.raw_eq s] at ha ⊢
    rw [hrest, SmallArcSlice.raw_eq]
    have hb : (SmallArcSlice.mk s.inner (s.start + 1) s.stop).backing =
        s.backing := by
      rcases s with ⟨inner, st, sp⟩
      cases inner <;> rfl
    rw [hb]
    exact sliceRange_head_cons ha
  · simp [hlt] at h

lemma SmallArcSlice.small_split_last_some_spec {s rest : SmallArcSlice T CAP}
    {e : T} (h : s.arc_slice_split_last = some (e, rest))
    (hwf : s.wfb = true) :
    s.raw_inner_slice = rest.raw_inner_slice ++ [e] ∧
    rest.inner = s.inner ∧ rest.start = s.start ∧ rest.stop = s.stop - 1 := by
  unfold arc_slice_split_last at h
  by_cases hlt : s.start < s.stop
  · simp only [hlt, if_true, Option.map_eq_some'] at h
    obtain ⟨a, ha, hpair⟩ := h
    have he : a = e := by
      have := congrArg Prod.fst hpair
      simpa using this
    have hrest : rest = ⟨s.inner, s.start, s.stop - 1⟩ := by
      have := congrArg Prod.snd hpair
      simpa using this.symm
    subst he
    refine ⟨?_, by rw [hrest], by rw [hrest], by rw [hrest]⟩
    rw [SmallArcSlice.raw_eq s] at ha ⊢
    rw [hrest, SmallArcSlice.raw_eq]
    have hb : (SmallArcSlice.mk s.inner s.start (s.stop - 1)).backing =
        s.backing := by
      rcases s with ⟨inner, st, sp⟩
      cases inner <;> rfl
    rw [hb]
    exact sliceRange_getLast_snoc hlt (SmallArcSlice.wfb_bounds hwf).2 ha
  · simp [hlt] at h

end SmallSplitLemmas

section SplitTotal

variable {T : Type} {CAP : Nat}

lemma ArcSlice.split_first_total {s : ArcSlice T} (h : 0 < s.len) :
    ∃ e rest, s.arc_slice_split_first = some (e, rest) ∧
      s.raw_inner_slice = e :: rest.raw_inner_slice := by
  rcases hsf : s.arc_slice_split_first with _ | ⟨e, rest⟩
  · have h0 := (ArcSlice.split_first_eq_none_iff s).mp hsf
    unfold ArcSlice.len at h
    rw [h0] at h
    simp at h
  · exact ⟨e, rest, rfl, ArcSlice.split_first_some_spec hsf⟩

lemma ArcSlice.split_last_total {s : ArcSlice T} (hwf : s.wfb = true)
    (h : 0 < s.len) :
    ∃ e rest, s.arc_slice_split_last = some (e, rest) ∧
      s.raw_inner_slice = rest.raw_inner_slice ++ [e] := by
  rcases hsf : s.arc_slice_split_last with _ | ⟨e, rest⟩
  · have h0 := (ArcSlice.split_last_eq_none_iff s).mp hsf
    unfold ArcSlice.len at h
    rw [h0] at h
    simp at h
  · exact ⟨e, rest, rfl, ArcSlice.split_last_some_spec hsf hwf⟩

lemma SmallArcSlice.small_split_first_total {s : SmallArcSlice T CAP}
    (h : 0 < s.len) :
    ∃ e rest, s.arc_slice_split_first = some (e, rest) ∧
      s.raw_inner_slice = e :: rest.raw_inner_slice := by
  rcases hsf : s.arc_slice_split_first with _ | ⟨e, rest⟩
  · have h0 := (SmallArcSlice.small_split_first_eq_none_iff s).mp hsf
    unfold SmallArcSlice.len at h
    rw [h0] at h
    simp at h
  · exact ⟨e, rest, rfl, (SmallArcSlice.small_split_first_some_spec hsf).1⟩

lemma SmallArcSlice.small_split_last_total {s : SmallArcSlice T CAP}
    (hwf : s.wfb = true) (h : 0 < s.len) :
    ∃ e rest, s.arc_slice_split_last = some (e, rest) ∧
      s.raw_inner_slice = rest.raw_inner_slice ++ [e] := by
  rcases hsf : s.arc_slice_split_last with _ | ⟨e, rest⟩
  · have h0 := (SmallArcSlice.small_split_last_eq_none_iff s).mp hsf
    unfold SmallArcSlice.len at h
    rw [h0] at h
    simp at h
  · exact ⟨e, rest, rfl, (SmallArcSlice.small_split_last_some_spec hsf hwf).1⟩

end SplitTotal

/-- Claim C1: for every handle of either kind whose visible sequence has
positive length L, split-first returns the element at index 0 together
with a remainder whose visible sequence is the original elements 1..L
(so its length is L - 1), and split-last symmetrically returns the
element at index L - 1 with a remainder covering elements 0..L-1. -/
theorem claim_take_ends_correct {T : Type} {CAP : Nat}
    (s : ArcSlice T) (t : SmallArcSlice T CAP)
    (hs : s.wfb = true) (ht : t.wfb = true)
    (hLs : 0 < s.len) (hLt : 0 < t.len) :
    (∃ e rest, s.arc_slice_split_first = some (e, rest) ∧
       s.raw_inner_slice = e :: rest.raw_inner_slice ∧
       rest.len = s.len - 1) ∧
    (∃ e rest, s.arc_slice_split_last = some (e, rest) ∧
       s.raw_inner_slice = rest.raw_inner_slice ++ [e] ∧
       rest.len = s.len - 1) ∧
    (∃ e rest, t.arc_slice_split_first = some (e, rest) ∧
       t.raw_inner_slice = e :: rest.raw_inner_slice ∧
       rest.len = t.len - 1) ∧
    (∃ e rest, t.arc_slice_split_last = some (e, rest) ∧
       t.raw_inner_slice = rest.raw_inner_slice ++ [e] ∧
       rest.len = t.len - 1) := by
  refine ⟨?_, ?_, ?_, ?_⟩
  · obtain ⟨e, rest, hsf, hcons⟩ := ArcSlice.split_first_total hLs
    refine ⟨e, rest, hsf, hcons, ?_⟩
    unfold ArcSlice.len
    rw [hcons]
    simp
  · obtain ⟨e, rest, hsf, hsnoc⟩ := ArcSlice.split_last_total hs hLs
    refine ⟨e, rest, hsf, hsnoc, ?_⟩
    unfold ArcSlice.len
    rw [hsnoc]
    simp
  · obtain ⟨e, rest, hsf, hcons⟩ := SmallArcSlice.small_split_first_total hLt
    refine ⟨e, rest, hsf, hcons, ?_⟩
    unfold SmallArcSlice.len
    rw [hcons]
    simp
  · obtain ⟨e, rest, hsf, hsnoc⟩ := SmallArcSlice.small_split_last_total ht hLt
    refine ⟨e, rest, hsf, hsnoc, ?_⟩
    unfold SmallArcSlice.len
    rw [hsnoc]
    simp

/-- Witness for claim C1 at a shared slice over 1, 2, 3 and a small
shared slice of capacity 2 over 1, 2, 3. -/
theorem claim_take_ends_correct_witness :
    ((ArcSlice.fromArray [1, 2, 3] : ArcSlice Nat).wfb = true ∧
     (SmallArcSlice.fromArray 2 [1, 2, 3] : SmallArcSlice Nat 2).wfb = true ∧
     0 < (ArcSlice.fromArray [1, 2, 3] : ArcSlice Nat).len ∧
     0 < (SmallArcSlice.fromArray 2 [1, 2, 3] : SmallArcSlice Nat 2).len) ∧
    ((∃ e rest,
        (ArcSlice.fromArray [1, 2, 3] : ArcSlice Nat).arc_slice_split_first =
          some (e, rest) ∧
        (ArcSlice.fromArray [1, 2, 3] : ArcSlice Nat).raw_inner_slice =
          e :: rest.raw_inner_slice ∧
        rest.len = (ArcSlice.fromArray [1, 2, 3] : ArcSlice Nat).len - 1) ∧
     (∃ e rest,
        (ArcSlice.fromArray [1, 2, 3] : ArcSlice Nat).arc_slice_split_last =
          some (e, rest) ∧
        (ArcSlice.fromArray [1, 2, 3] : ArcSlice Nat).raw_inner_slice =
          rest.raw_inner_slice ++ [e] ∧
        rest.len = (ArcSlice.fromArray [1, 2, 3] : ArcSlice Nat).len - 1) ∧
     (∃ e rest,
        (SmallArcSlice.fromArray 2 [1, 2, 3] :
            SmallArcSlice Nat 2).arc_slice_split_first = some (e, rest) ∧
        (SmallArcSlice.fromArray 2 [1, 2, 3] :
            SmallArcSlice Nat 2).raw_inner_slice =
          e :: rest.raw_inner_slice ∧
        rest.len =
          (SmallArcSlice.fromArray 2 [1, 2, 3] :
            SmallArcSlice Nat 2).len - 1) ∧
     (∃ e rest,
        (SmallArcSlice.fromArray 2 [1, 2, 3] :
            SmallArcSlice Nat 2).arc_slice_split_last = some (e, rest) ∧
        (SmallArcSlice.fromArray 2 [1, 2, 3] :
            SmallArcSlice Nat 2).raw_inner_slice =
          rest.raw_inner_slice ++ [e] ∧
        rest.len =
          (SmallArcSlice.fromArray 2 [1, 2, 3] :
            SmallArcSlice Nat 2).len - 1)) :=
  ⟨⟨by decide, by decide, by decide, by decide⟩,
   claim_take_ends_correct (ArcSlice.fromArray [1, 2, 3])
     (SmallArcSlice.fromArray 2 [1, 2, 3])
     (by decide) (by decide) (by decide) (by decide)⟩

/-- Claim C6: on every well-formed handle of either kind whose logical
length is 0, both split operations return none. -/
theorem claim_empty_split_none {T : Type} {CAP : Nat}
    (s : ArcSlice T) (t : SmallArcSlice T CAP)
    (hs : s.wfb = true) (ht : t.wfb = true)
    (hLs : s.len = 0) (hLt : t.len = 0) :
    s.arc_slice_split_first = none ∧ s.arc_slice_split_last = none ∧
    t.arc_slice_split_first = none ∧ t.arc_slice_split_last = none := by
  have hsr : s.raw_inner_slice = [] :=
    List.eq_nil_of_length_eq_zero hLs
  have htr : t.raw_inner_slice = [] :=
    List.eq_nil_of_length_eq_zero hLt
  exact ⟨(ArcSlice.split_first_eq_none_iff s).mpr hsr,
         (ArcSlice.split_last_eq_none_iff s).mpr hsr,
         (SmallArcSlice.small_split_first_eq_none_iff t).mpr htr,
         (SmallArcSlice.small_split_last_eq_none_iff t).mpr htr⟩

/-- Witness for claim C6 at the default shared slice and a small shared
slice built from an empty iterator. -/
theorem claim_empty_split_none_witness :
    ((ArcSlice.defaultHandle : ArcSlice Nat).wfb = true ∧
     (SmallArcSlice.from_iter 3 [] : SmallArcSlice Nat 3).wfb = true ∧
     (ArcSlice.defaultHandle : ArcSlice Nat).len = 0 ∧
     (SmallArcSlice.from_iter 3 [] : SmallArcSlice Nat 3).len = 0) ∧
    ((ArcSlice.defaultHandle : ArcSlice Nat).arc_slice_split_first = none ∧
     (ArcSlice.defaultHandle : ArcSlice Nat).arc_slice_split_last = none ∧
     (SmallArcSlice.from_iter 3 [] :
        SmallArcSlice Nat 3).arc_slice_split_first = none ∧
     (SmallArcSlice.from_iter 3 [] :
        SmallArcSlice Nat 3).arc_slice_split_last = none) :=
  ⟨⟨by decide, by decide, by decide, by decide⟩,
   claim_empty_split_none ArcSlice.defaultHandle (SmallArcSlice.from_iter 3 [])
     (by decide) (by decide) (by decide) (by decide)⟩

section ConstructionLemmas

variable {T : Type}

lemma sliceRange_full (l : List T) : sliceRange l 0 l.length = l := by
  unfold sliceRange
  simp

/-- Claim C7: shared-slice construction. From a fixed-size collection the
result is Empty exactly when it is empty and otherwise one Shared buffer
of exactly the N elements with range 0..N; from an iterator the result is
Empty for an empty source and otherwise one Shared buffer holding the
drained elements with full range; the default handle is Empty; in every
case the visible sequence equals the source sequence. -/
theorem claim_arc_slice_construction (values source : List T) :
    ((values = [] → ArcSlice.fromArray values = ⟨.Empty⟩) ∧
     (values ≠ [] → (ArcSlice.fromArray values).inner =
        ArcSliceInner.Shared values 0 values.length) ∧
     (ArcSlice.fromArray values).raw_inner_slice = values) ∧
    ((source = [] → ArcSlice.from_iter source = ⟨.Empty⟩) ∧
     (source ≠ [] → (ArcSlice.from_iter source).inner =
        ArcSliceInner.Shared source 0 source.length) ∧
     (ArcSlice.from_iter source).raw_inner_slice = source) ∧
    ((ArcSlice.defaultHandle : ArcSlice T).inner = ArcSliceInner.Empty ∧
     (ArcSlice.defaultHandle : ArcSlice T).raw_inner_slice = []) := by
  refine ⟨⟨?_, ?_, ?_⟩, ⟨?_, ?_, ?_⟩, rfl, rfl⟩
  · intro hv
    subst hv
    rfl
  · intro hv
    have hlen : values.length ≠ 0 := fun h0 => hv (List.eq_nil_of_length_eq_zero h0)
    unfold ArcSlice.fromArray
    simp [hlen]
  · by_cases hv : values = []
    · subst hv
      rfl
    · have hlen : values.length ≠ 0 := fun h0 => hv (List.eq_nil_of_length_eq_zero h0)
      unfold ArcSlice.fromArray ArcSlice.raw_inner_slice
      simp only [hlen, if_false]
      exact sliceRange_full values
  · intro hv
    subst hv
    rfl
  · intro hv
    rcases source with _ | ⟨x, xs⟩
    · exact absurd rfl hv
    · rfl
  · rcases source with _ | ⟨x, xs⟩
    · rfl
    · unfold ArcSlice.from_iter ArcSlice.raw_inner_slice
      exact sliceRange_full (x :: xs)

/-- Witness for claim C7 at an empty and a two-element source. -/
theorem claim_arc_slice_construction_witness :
    ArcSlice.fromArray ([] : List Nat) = ⟨.Empty⟩ ∧
    (([1, 2] : List Nat) ≠ [] ∧
     (ArcSlice.fromArray [1, 2] : ArcSlice Nat).inner =
       ArcSliceInner.Shared [1, 2] 0 2) ∧
    (ArcSlice.fromArray ([1, 2] : List Nat)).raw_inner_slice = [1, 2] ∧
    (ArcSlice.from_iter ([1, 2] : List Nat)).raw_inner_slice = [1, 2] ∧
    (ArcSlice.defaultHandle : ArcSlice Nat).raw_inner_slice = [] :=
  ⟨(claim_arc_slice_construction ([] : List Nat) []).1.1 rfl,
   ⟨by decide,
    (claim_arc_slice_construction ([1, 2] : List Nat) [1, 2]).1.2.1
      (by decide)⟩,
   (claim_arc_slice_construction ([1, 2] : List Nat) [1, 2]).1.2.2,
   (claim_arc_slice_construction ([1, 2] : List Nat) [1, 2]).2.1.2.2,
   (claim_arc_slice_construction ([1, 2] : List Nat) [1, 2]).2.2.2⟩

lemma SmallArcSlice.from_iter_loop_spec {T : Type} (CAP : Nat) :
    ∀ (source array : List T), array.length ≤ CAP →
      from_iter_loop CAP array source =
        if array.length + source.length ≤ CAP then
          ⟨.Inline (array ++ source), 0, (array ++ source).length⟩
        else
          ⟨.Shared (array ++ source), 0, (array ++ source).length⟩ := by
  intro source
  induction source with
  | nil =>
    intro array h
    simp [from_iter_loop, h]
  | cons v iter ih =>
    intro array h
    unfold from_iter_loop
    by_cases hlt : array.length < CAP
    · rw [if_pos hlt, ih (array ++ [v]) (by simp; omega)]
      have harr : (array ++ [v]) ++ iter = array ++ v :: iter := by simp
      rw [harr]
      have hcond : ((array ++ [v]).length + iter.length ≤ CAP) ↔
          (array.length + (v :: iter).length ≤ CAP) := by
        simp
        omega
      by_cases h2 : array.length + (v :: iter).length ≤ CAP
      · rw [if_pos (hcond.mpr h2), if_pos h2]
      · rw [if_neg (fun hh => h2 (hcond.mp hh)), if_neg h2]
    · have hno : ¬ (array.length + (v :: iter).length ≤ CAP) := by
        simp
        omega
      rw [if_neg hlt, if_neg hno]

/-- Claim C3: the small-slice iterator construction keeps at most CAP
elements in the Inline variant; a (CAP+1)-th element forces one Shared
buffer holding the collected elements, the overflow element and the
drained remainder in order; the visible sequence always equals the full
source and the range is 0..length. -/
theorem claim_small_from_iter {T : Type} (CAP : Nat) (source : List T) :
    (source.length ≤ CAP →
       SmallArcSlice.from_iter CAP source =
         ⟨.Inline source, 0, source.length⟩) ∧
    (CAP < source.length →
       SmallArcSlice.from_iter CAP source =
         ⟨.Shared source, 0, source.length⟩) ∧
    (SmallArcSlice.from_iter CAP source).raw_inner_slice = source ∧
    (SmallArcSlice.from_iter CAP source).start = 0 ∧
    (SmallArcSlice.from_iter CAP source).stop = source.length := by
  have hspec := SmallArcSlice.from_iter_loop_spec CAP source []
    (by simp)
  unfold SmallArcSlice.from_iter
  rw [hspec]
  simp only [List.nil_append, List.length_nil, Nat.zero_add]
  by_cases hle : source.length ≤ CAP
  · rw [if_pos hle]
    refine ⟨fun _ => rfl, fun hgt => absurd hle (by omega), ?_, rfl, rfl⟩
    exact sliceRange_full source
  · rw [if_neg hle]
    refine ⟨fun hc => absurd hc hle, fun _ => rfl, ?_, rfl, rfl⟩
    exact sliceRange_full source

/-- Witness for claim C3 at capacity 2: a one-element source stays
Inline and a three-element source takes the overflow path to one Shared
buffer. -/
theorem claim_small_from_iter_witness :
    (([1] : List Nat).length ≤ 2 ∧
     SmallArcSlice.from_iter 2 [1] =
       (⟨.Inline [1], 0, 1⟩ : SmallArcSlice Nat 2)) ∧
    (2 < ([1, 2, 3] : List Nat).length ∧
     SmallArcSlice.from_iter 2 [1, 2, 3] =
       (⟨.Shared [1, 2, 3], 0, 3⟩ : SmallArcSlice Nat 2)) ∧
    (SmallArcSlice.from_iter 2 ([1, 2, 3] : List Nat)).raw_inner_slice =
      [1, 2, 3] ∧
    (SmallArcSlice.from_iter 2 ([1, 2, 3] : List Nat)).start = 0 ∧
    (SmallArcSlice.from_iter 2 ([1, 2, 3] : List Nat)).stop = 3 :=
  ⟨⟨by decide, (claim_small_from_iter 2 [1]).1 (by decide)⟩,
   ⟨by decide, (claim_small_from_iter 2 [1, 2, 3]).2.1 (by decide)⟩,
   (claim_small_from_iter 2 [1, 2, 3]).2.2.1,
   (claim_small_from_iter 2 [1, 2, 3]).2.2.2.1,
   (claim_small_from_iter 2 [1, 2, 3]).2.2.2.2⟩

end ConstructionLemmas

section StickyTag

variable {T : Type} {CAP : Nat}

lemma SmallArcSlice.small_split_last_parts {s rest : SmallArcSlice T CAP} {e : T}
    (h : s.arc_slice_split_last = some (e, rest)) :
    rest.inner = s.inner ∧ rest.start = s.start ∧ rest.stop = s.stop - 1 := by
  unfold arc_slice_split_last at h
  by_cases hlt : s.start < s.stop
  · simp only [hlt, if_true, Option.map_eq_some'] at h
    obtain ⟨a, ha, hpair⟩ := h
    have hrest : rest = ⟨s.inner, s.start, s.stop - 1⟩ := by
      have := congrArg Prod.snd hpair
      simpa using this.symm
    rw [hrest]
    exact ⟨rfl, rfl, rfl⟩
  · simp [hlt] at h

/-- Apply a sequence of end trims: true picks split-first, false picks
split-last; a failed split keeps the handle. -/
def SmallArcSlice.trimSeq : List Bool → SmallArcSlice T CAP →
    SmallArcSlice T CAP
  | [], s => s
  | op :: ops, s =>
    match (if op then s.arc_slice_split_first else s.arc_slice_split_last) with
    | some (_, rest) => trimSeq ops rest
    | none => trimSeq ops s

lemma SmallArcSlice.trimSeq_inner (ops : List Bool)
    (s : SmallArcSlice T CAP) :
    (SmallArcSlice.trimSeq ops s).inner = s.inner := by
  induction ops generalizing s with
  | nil => rfl
  | cons op ops ih =>
    unfold trimSeq
    rcases hsp : (if op then s.arc_slice_split_first
        else s.arc_slice_split_last) with _ | ⟨e, rest⟩
    · exact ih s
    · have hinner : rest.inner = s.inner := by
        cases op with
        | true =>
          rw [if_pos rfl] at hsp
          exact (SmallArcSlice.small_split_first_some_spec hsp).2.1
        | false =>
          rw [if_neg Bool.false_ne_true] at hsp
          exact (SmallArcSlice.small_split_last_parts hsp).1
      rw [ih rest, hinner]

lemma SmallArcSlice.isInline_congr {a b : SmallArcSlice T CAP}
    (h : a.inner = b.inner) : a.isInline = b.isInline := by
  unfold isInline
  rw [h]

/-- Claim C4: both split operations on a small shared slice keep the
tagged storage (hence the Inline or Shared tag) of the receiver and only
move the external range field, and consequently no sequence of trims
ever changes the tag. -/
theorem claim_sticky_tag {T : Type} {CAP : Nat}
    (s rest1 rest2 : SmallArcSlice T CAP) (e1 e2 : T)
    (h1 : s.arc_slice_split_first = some (e1, rest1))
    (h2 : s.arc_slice_split_last = some (e2, rest2)) :
    (rest1.inner = s.inner ∧ rest1.isInline = s.isInline ∧
     rest1.start = s.start + 1 ∧ rest1.stop = s.stop) ∧
    (rest2.inner = s.inner ∧ rest2.isInline = s.isInline ∧
     rest2.start = s.start ∧ rest2.stop = s.stop - 1) ∧
    (∀ ops : List Bool,
       (SmallArcSlice.trimSeq ops s).inner = s.inner ∧
       (SmallArcSlice.trimSeq ops s).isInline = s.isInline) := by
  obtain ⟨_, hi1, hs1, hp1⟩ := SmallArcSlice.small_split_first_some_spec h1
  obtain ⟨hi2, hs2, hp2⟩ := SmallArcSlice.small_split_last_parts h2
  refine ⟨⟨hi1, SmallArcSlice.isInline_congr hi1, hs1, hp1⟩,
          ⟨hi2, SmallArcSlice.isInline_congr hi2, hs2, hp2⟩, ?_⟩
  intro ops
  exact ⟨SmallArcSlice.trimSeq_inner ops s,
         SmallArcSlice.isInline_congr (SmallArcSlice.trimSeq_inner ops s)⟩

/-- Witness for claim C4 at an inline-backed capacity-2 handle over 5, 6,
with the trim sequence instantiated at first, last, first. -/
theorem claim_sticky_tag_witness :
    ((SmallArcSlice.fromArray 2 [5, 6] :
        SmallArcSlice Nat 2).arc_slice_split_first =
       some (5, ⟨.Inline [5, 6], 1, 2⟩) ∧
     (SmallArcSlice.fromArray 2 [5, 6] :
        SmallArcSlice Nat 2).arc_slice_split_last =
       some (6, ⟨.Inline [5, 6], 0, 1⟩)) ∧
    ((⟨.Inline [5, 6], 1, 2⟩ : SmallArcSlice Nat 2).inner =
       (SmallArcSlice.fromArray 2 [5, 6]).inner ∧
     (⟨.Inline [5, 6], 0, 1⟩ : SmallArcSlice Nat 2).inner =
       (SmallArcSlice.fromArray 2 [5, 6]).inner ∧
     (SmallArcSlice.trimSeq [true, false, true]
        (SmallArcSlice.fromArray 2 [5, 6])).isInline =
       (SmallArcSlice.fromArray 2 [5, 6]).isInline) :=
  ⟨⟨by decide, by decide⟩,
   ((claim_sticky_tag (SmallArcSlice.fromArray 2 [5, 6])
       ⟨.Inline [5, 6], 1, 2⟩ ⟨.Inline [5, 6], 0, 1⟩ 5 6
       (by decide) (by decide)).1.1),
   ((claim_sticky_tag (SmallArcSlice.fromArray 2 [5, 6])
       ⟨.Inline [5, 6], 1, 2⟩ ⟨.Inline [5, 6], 0, 1⟩ 5 6
       (by decide) (by decide)).2.1.1),
   ((claim_sticky_tag (SmallArcSlice.fromArray 2 [5, 6])
       ⟨.Inline [5, 6], 1, 2⟩ ⟨.Inline [5, 6], 0, 1⟩ 5 6
       (by decide) (by decide)).2.2 [true, false, true]).2⟩

end StickyTag

section IteratorLemmas

lemma iterRun_spec {S Item : Type} [inst : ArcSliceSplit S Item]
    (vis : S → List Item)
    (hnone : ∀ u : S,
       @ArcSliceSplit.split_first S Item inst u = none ↔ vis u = [])
    (hsome : ∀ (u : S) (e : Item) (rest : S),
       @ArcSliceSplit.split_first S Item inst u = some (e, rest) →
       vis u = e :: vis rest) :
    ∀ (n : Nat) (u : S), n = (vis u).length →
      (iterRun n (⟨u⟩ : ArcSliceIter S)).1 = vis u ∧
      ((iterRun n (⟨u⟩ : ArcSliceIter S)).2).next = none := by
  intro n
  induction n with
  | zero =>
    intro u hn
    have hv : vis u = [] := List.eq_nil_of_length_eq_zero hn.symm
    refine ⟨by rw [hv]; rfl, ?_⟩
    show ArcSliceIter.next ⟨u⟩ = none
    unfold ArcSliceIter.next
    rw [(hnone u).mpr hv]
  | succ k ih =>
    intro u hn
    rcases hsf : @ArcSliceSplit.split_first S Item inst u with _ | ⟨e, rest⟩
    · have hv := (hnone u).mp hsf
      rw [hv] at hn
      simp at hn
    · have hcons := hsome u e rest hsf
      have hk : k = (vis rest).length := by
        rw [hcons] at hn
        simpa using hn
      have hrec := ih rest hk
      have hnext : (⟨u⟩ : ArcSliceIter S).next = some (e, ⟨rest⟩) := by
        unfold ArcSliceIter.next
        rw [hsf]
      constructor
      · show (iterRun (k + 1) ⟨u⟩).1 = vis u
        unfold iterRun
        rw [hnext]
        show e :: (iterRun k ⟨rest⟩).1 = vis u
        rw [hcons, hrec.1]
      · show ((iterRun (k + 1) ⟨u⟩).2).next = none
        unfold iterRun
        rw [hnext]
        show ((iterRun k ⟨rest⟩).2).next = none
        exact hrec.2

/-- Claim C5: consuming a handle of either kind through the generic
iterator for its full logical length yields exactly the visible sequence
in order, and the iterator state reached afterwards answers none to
every further next call. -/
theorem claim_iter_yields_all {T : Type} {CAP : Nat}
    (s : ArcSlice T) (t : SmallArcSlice T CAP) :
    ((iterRun s.len s.into_iter).1 = s.raw_inner_slice ∧
     ((iterRun s.len s.into_iter).2).next = none) ∧
    ((iterRun t.len t.into_iter).1 = t.raw_inner_slice ∧
     ((iterRun t.len t.into_iter).2).next = none) := by
  constructor
  · exact iterRun_spec ArcSlice.raw_inner_slice
      (fun u => ArcSlice.split_first_eq_none_iff u)
      (fun u e rest h => ArcSlice.split_first_some_spec h)
      s.len s rfl
  · exact iterRun_spec SmallArcSlice.raw_inner_slice
      (fun u => SmallArcSlice.small_split_first_eq_none_iff u)
      (fun u e rest h => (SmallArcSlice.small_split_first_some_spec h).1)
      t.len t rfl

end IteratorLemmas

section ContentIdentity

/-- Claim C2: equality of handles of either kind (including small slices
of different capacities) holds exactly when the visible element
sequences are equal, and ordering and hashing are likewise functions of
the visible sequence alone, never of the backing representation. -/
theorem claim_content_identity {T : Type} [DecidableEq T] {CAP1 CAP2 : Nat}
    (a b : ArcSlice T) (c : SmallArcSlice T CAP1) (d : SmallArcSlice T CAP2)
    (cf : T → T → Ordering) (hf : T → Nat) :
    (ArcSlice.eq a b = true ↔ a.raw_inner_slice = b.raw_inner_slice) ∧
    (SmallArcSlice.eq c d = true ↔ c.raw_inner_slice = d.raw_inner_slice) ∧
    ArcSlice.cmp cf a b = listCmp cf a.raw_inner_slice b.raw_inner_slice ∧
    SmallArcSlice.cmp cf c d =
      listCmp cf c.raw_inner_slice d.raw_inner_slice ∧
    ArcSlice.hashModel hf a = hashStream hf a.raw_inner_slice ∧
    SmallArcSlice.hashModel hf c = hashStream hf c.raw_inner_slice := by
  refine ⟨?_, ?_, rfl, rfl, rfl, rfl⟩
  · unfold ArcSlice.eq
    exact decide_eq_true_iff
  · unfold SmallArcSlice.eq
    exact decide_eq_true_iff

/-- Witness for claim C2: an inline-backed capacity-4 small slice over
1, 2, 3 compares equal to a shared-backed capacity-2 small slice built
from an iterator over 1, 2, 3. -/
theorem claim_content_identity_witness :
    (ArcSlice.eq (ArcSlice.fromArray [1, 2, 3])
       (ArcSlice.from_iter [1, 2, 3]) = true ↔
     (ArcSlice.fromArray ([1, 2, 3] : List Nat)).raw_inner_slice =
       (ArcSlice.from_iter [1, 2, 3]).raw_inner_slice) ∧
    (SmallArcSlice.eq
       (SmallArcSlice.fromArray 4 [1, 2, 3] : SmallArcSlice Nat 4)
       (SmallArcSlice.from_iter 2 [1, 2, 3] : SmallArcSlice Nat 2) = true ↔
     (SmallArcSlice.fromArray 4 ([1, 2, 3] : List Nat) :
        SmallArcSlice Nat 4).raw_inner_slice =
       (SmallArcSlice.from_iter 2 [1, 2, 3] :
          SmallArcSlice Nat 2).raw_inner_slice) :=
  ⟨(claim_content_identity (ArcSlice.fromArray [1, 2, 3])
      (ArcSlice.from_iter [1, 2, 3])
      (SmallArcSlice.fromArray 4 [1, 2, 3] : SmallArcSlice Nat 4)
      (SmallArcSlice.from_iter 2 [1, 2, 3] : SmallArcSlice Nat 2)
      compare (fun x => x)).1,
   (claim_content_identity (ArcSlice.fromArray [1, 2, 3])
      (ArcSlice.from_iter [1, 2, 3])
      (SmallArcSlice.fromArray 4 [1, 2, 3] : SmallArcSlice Nat 4)
      (SmallArcSlice.from_iter 2 [1, 2, 3] : SmallArcSlice Nat 2)
      compare (fun x => x)).2.1⟩

end ContentIdentity

section Invariant

variable {T : Type} {CAP : Nat}

lemma ArcSlice.clone_eq (s : ArcSlice T) : s.clone = s := by
  rcases s with ⟨inner⟩
  cases inner <;> rfl

lemma SmallArcSlice.small_clone_eq (s : SmallArcSlice T CAP) : s.clone = s :=
  rfl

lemma ArcSlice.fromArray_wfb (values : List T) :
    (ArcSlice.fromArray values).wfb = true := by
  unfold ArcSlice.fromArray
  by_cases h : values.length = 0
  · rw [if_pos h]
    rfl
  · rw [if_neg h]
    unfold ArcSlice.wfb
    simp

lemma ArcSlice.from_iter_wfb (source : List T) :
    (ArcSlice.from_iter source).wfb = true := by
  rcases source with _ | ⟨x, xs⟩
  · rfl
  · unfold ArcSlice.from_iter ArcSlice.wfb
    simp

lemma ArcSlice.split_first_lt {buf : List T} {st sp : Nat} {e : T}
    {rest : ArcSlice T}
    (h : (ArcSlice.mk (.Shared buf st sp)).arc_slice_split_first =
      some (e, rest)) :
    st < sp ∧ rest = ⟨.Shared buf (st + 1) sp⟩ := by
  unfold arc_slice_split_first at h
  by_cases hlt : st < sp
  · simp only [hlt, if_true, Option.map_eq_some'] at h
    obtain ⟨a, ha, hpair⟩ := h
    have := congrArg Prod.snd hpair
    exact ⟨hlt, by simpa using this.symm⟩
  · simp [hlt] at h

lemma ArcSlice.split_last_lt {buf : List T} {st sp : Nat} {e : T}
    {rest : ArcSlice T}
    (h : (ArcSlice.mk (.Shared buf st sp)).arc_slice_split_last =
      some (e, rest)) :
    st < sp ∧ rest = ⟨.Shared buf st (sp - 1)⟩ := by
  unfold arc_slice_split_last at h
  by_cases hlt : st < sp
  · simp only [hlt, if_true, Option.map_eq_some'] at h
    obtain ⟨a, ha, hpair⟩ := h
    have := congrArg Prod.snd hpair
    exact ⟨hlt, by simpa using this.symm⟩
  · simp [hlt] at h

lemma ArcSlice.split_first_wfb {s rest : ArcSlice T} {e : T}
    (hwf : s.wfb = true)
    (h : s.arc_slice_split_first = some (e, rest)) :
    rest.wfb = true := by
  rcases s with ⟨inner⟩
  rcases inner with _ | ⟨buf, st, sp⟩
  · simp [ArcSlice.arc_slice_split_first] at h
  · obtain ⟨hlt, hrest⟩ := ArcSlice.split_first_lt h
    have hb : st ≤ sp ∧ sp ≤ buf.length := of_decide_eq_true hwf
    subst hrest
    show decide (st + 1 ≤ sp ∧ sp ≤ buf.length) = true
    rw [decide_eq_true_eq]
    exact ⟨by omega, hb.2⟩

lemma ArcSlice.split_last_wfb {s rest : ArcSlice T} {e : T}
    (hwf : s.wfb = true)
    (h : s.arc_slice_split_last = some (e, rest)) :
    rest.wfb = true := by
  rcases s with ⟨inner⟩
  rcases inner with _ | ⟨buf, st, sp⟩
  · simp [ArcSlice.arc_slice_split_last] at h
  · obtain ⟨hlt, hrest⟩ := ArcSlice.split_last_lt h
    have hb : st ≤ sp ∧ sp ≤ buf.length := of_decide_eq_true hwf
    subst hrest
    show decide (st ≤ sp - 1 ∧ sp - 1 ≤ buf.length) = true
    rw [decide_eq_true_eq]
    exact ⟨by omega, by omega⟩

lemma SmallArcSlice.wfb_narrow {inner : SmallArcSliceInner T CAP}
    {a b a2 b2 : Nat} (hwf : (SmallArcSlice.mk inner a b).wfb = true)
    (h1 : a2 ≤ b2) (h2 : b2 ≤ b) :
    (SmallArcSlice.mk inner a2 b2).wfb = true := by
  cases inner with
  | Inline buf =>
    have hb : a ≤ b ∧ b ≤ buf.length ∧ buf.length ≤ CAP :=
      of_decide_eq_true hwf
    show decide (a2 ≤ b2 ∧ b2 ≤ buf.length ∧ buf.length ≤ CAP) = true
    rw [decide_eq_true_eq]
    exact ⟨h1, by omega, hb.2.2⟩
  | Shared buf =>
    have hb : a ≤ b ∧ b ≤ buf.length := of_decide_eq_true hwf
    show decide (a2 ≤ b2 ∧ b2 ≤ buf.length) = true
    rw [decide_eq_true_eq]
    exact ⟨h1, by omega⟩

lemma SmallArcSlice.small_split_first_lt {s : SmallArcSlice T CAP} {e : T}
    {rest : SmallArcSlice T CAP}
    (h : s.arc_slice_split_first = some (e, rest)) :
    s.start < s.stop := by
  unfold arc_slice_split_first at h
  by_cases hlt : s.start < s.stop
  · exact hlt
  · simp [hlt] at h

lemma SmallArcSlice.small_split_last_lt {s : SmallArcSlice T CAP} {e : T}
    {rest : SmallArcSlice T CAP}
    (h : s.arc_slice_split_last = some (e, rest)) :
    s.start < s.stop := by
  unfold arc_slice_split_last at h
  by_cases hlt : s.start < s.stop
  · exact hlt
  · simp [hlt] at h

lemma SmallArcSlice.small_split_first_wfb {s rest : SmallArcSlice T CAP} {e : T}
    (hwf : s.wfb = true)
    (h : s.arc_slice_split_first = some (e, rest)) :
    rest.wfb = true := by
  have hlt := SmallArcSlice.small_split_first_lt h
  obtain ⟨_, hi, ha, hb⟩ := SmallArcSlice.small_split_first_some_spec h
  rcases s with ⟨si, sa, sb⟩
  rcases rest with ⟨ri, ra, rb⟩
  simp only at hi ha hb hlt
  subst hi
  subst ha
  subst hb
  exact SmallArcSlice.wfb_narrow hwf (by omega) (by omega)

lemma SmallArcSlice.small_split_last_wfb {s rest : SmallArcSlice T CAP} {e : T}
    (hwf : s.wfb = true)
    (h : s.arc_slice_split_last = some (e, rest)) :
    rest.wfb = true := by
  have hlt := SmallArcSlice.small_split_last_lt h
  obtain ⟨hi, ha, hb⟩ := SmallArcSlice.small_split_last_parts h
  rcases s with ⟨si, sa, sb⟩
  rcases rest with ⟨ri, ra, rb⟩
  simp only at hi ha hb hlt
  subst hi
  subst ha
  subst hb
  exact SmallArcSlice.wfb_narrow hwf (by omega) (by omega)

lemma SmallArcSlice.small_fromArray_wfb (values : List T) :
    (SmallArcSlice.fromArray CAP values).wfb = true := by
  unfold SmallArcSlice.fromArray
  by_cases h : values.length ≤ CAP
  · rw [if_pos h]
    show decide (0 ≤ values.length ∧ values.length ≤ values.length ∧
      values.length ≤ CAP) = true
    rw [decide_eq_true_eq]
    exact ⟨Nat.zero_le _, Nat.le_refl _, h⟩
  · rw [if_neg h]
    show decide (0 ≤ values.length ∧ values.length ≤ values.length) = true
    rw [decide_eq_true_eq]
    exact ⟨Nat.zero_le _, Nat.le_refl _⟩

lemma SmallArcSlice.small_from_iter_wfb (source : List T) :
    (SmallArcSlice.from_iter CAP source).wfb = true := by
  unfold SmallArcSlice.from_iter
  rw [SmallArcSlice.from_iter_loop_spec CAP source [] (by simp)]
  simp only [List.nil_append, List.length_nil, Nat.zero_add]
  by_cases h : source.length ≤ CAP
  · rw [if_pos h]
    show decide (0 ≤ source.length ∧ source.length ≤ source.length ∧
      source.length ≤ CAP) = true
    rw [decide_eq_true_eq]
    exact ⟨Nat.zero_le _, Nat.le_refl _, h⟩
  · rw [if_neg h]
    show decide (0 ≤ source.length ∧ source.length ≤ source.length) = true
    rw [decide_eq_true_eq]
    exact ⟨Nat.zero_le _, Nat.le_refl _⟩

lemma SmallArcSlice.defaultHandle_wfb :
    (SmallArcSlice.defaultHandle CAP : SmallArcSlice T CAP).wfb = true := by
  show decide (0 ≤ 0 ∧ 0 ≤ ([] : List T).length ∧
    ([] : List T).length ≤ CAP) = true
  rw [decide_eq_true_eq]
  exact ⟨Nat.le_refl _, Nat.zero_le _, Nat.zero_le _⟩

/-- Every shared-slice handle obtainable through the public interface:
the constructors, cloning, and the remainders of successful splits. -/
inductive ArcSlice.Reachable {T : Type} : ArcSlice T → Prop where
  | ofArray (values : List T) : Reachable (ArcSlice.fromArray values)
  | ofIter (source : List T) : Reachable (ArcSlice.from_iter source)
  | ofDefault : Reachable ArcSlice.defaultHandle
  | ofClone {s : ArcSlice T} : Reachable s → Reachable s.clone
  | ofSplitFirst {s : ArcSlice T} {e : T} {rest : ArcSlice T} :
      Reachable s → s.arc_slice_split_first = some (e, rest) →
      Reachable rest
  | ofSplitLast {s : ArcSlice T} {e : T} {rest : ArcSlice T} :
      Reachable s → s.arc_slice_split_last = some (e, rest) →
      Reachable rest

/-- Every small-shared-slice handle obtainable through the public
interface. -/
inductive SmallArcSlice.Reachable {T : Type} {CAP : Nat} :
    SmallArcSlice T CAP → Prop where
  | ofArray (values : List T) :
      Reachable (SmallArcSlice.fromArray CAP values)
  | ofIter (source : List T) :
      Reachable (SmallArcSlice.from_iter CAP source)
  | ofDefault : Reachable (SmallArcSlice.defaultHandle CAP)
  | ofClone {s : SmallArcSlice T CAP} : Reachable s → Reachable s.clone
  | ofSplitFirst {s : SmallArcSlice T CAP} {e : T}
      {rest : SmallArcSlice T CAP} :
      Reachable s → s.arc_slice_split_first = some (e, rest) →
      Reachable rest
  | ofSplitLast {s : SmallArcSlice T CAP} {e : T}
      {rest : SmallArcSlice T CAP} :
      Reachable s → s.arc_slice_split_last = some (e, rest) →
      Reachable rest

/-- Claim C8: every handle of either kind reachable through the public
interface (construction, cloning, splits) satisfies the representation
invariant: the range is within the bounds of the backing storage, and an
inline buffer respects the capacity. -/
theorem claim_wf_reachable {T : Type} {CAP : Nat}
    (s : ArcSlice T) (t : SmallArcSlice T CAP)
    (hs : ArcSlice.Reachable s) (ht : SmallArcSlice.Reachable t) :
    s.wfb = true ∧ t.wfb = true := by
  constructor
  · induction hs with
    | ofArray values => exact ArcSlice.fromArray_wfb values
    | ofIter source => exact ArcSlice.from_iter_wfb source
    | ofDefault => rfl
    | ofClone _ ih => rw [ArcSlice.clone_eq]; exact ih
    | ofSplitFirst _ hsp ih => exact ArcSlice.split_first_wfb ih hsp
    | ofSplitLast _ hsp ih => exact ArcSlice.split_last_wfb ih hsp
  · induction ht with
    | ofArray values => exact SmallArcSlice.small_fromArray_wfb values
    | ofIter source => exact SmallArcSlice.small_from_iter_wfb source
    | ofDefault => exact SmallArcSlice.defaultHandle_wfb
    | ofClone _ ih => rw [SmallArcSlice.small_clone_eq]; exact ih
    | ofSplitFirst _ hsp ih => exact SmallArcSlice.small_split_first_wfb ih hsp
    | ofSplitLast _ hsp ih => exact SmallArcSlice.small_split_last_wfb ih hsp

/-- Witness for claim C8 at a split remainder of a three-element shared
slice and a clone of an overflowing small-slice construction. -/
theorem claim_wf_reachable_witness :
    (ArcSlice.Reachable (ArcSlice.mk (.Shared [1, 2, 3] 1 3) :
        ArcSlice Nat) ∧
     SmallArcSlice.Reachable
       ((SmallArcSlice.from_iter 2 [1, 2, 3] :
          SmallArcSlice Nat 2).clone)) ∧
    ((ArcSlice.mk (.Shared [1, 2, 3] 1 3) : ArcSlice Nat).wfb = true ∧
     ((SmallArcSlice.from_iter 2 [1, 2, 3] :
        SmallArcSlice Nat 2).clone).wfb = true) := by
  have hr : ArcSlice.Reachable
      (ArcSlice.mk (.Shared [1, 2, 3] 1 3) : ArcSlice Nat) :=
    ArcSlice.Reachable.ofSplitFirst (e := 1)
      (ArcSlice.Reachable.ofArray [1, 2, 3]) (by decide)
  have ht : SmallArcSlice.Reachable
      ((SmallArcSlice.from_iter 2 [1, 2, 3] :
        SmallArcSlice Nat 2).clone) :=
    SmallArcSlice.Reachable.ofClone
      (SmallArcSlice.Reachable.ofIter [1, 2, 3])
  exact ⟨⟨hr, ht⟩, claim_wf_reachable _ _ hr ht⟩

end Invariant

section LenOneRemainder

/-- Claim C10: splitting a length-1 shared slice leaves a remainder in
the Shared variant with an empty range, not the Empty variant; that
remainder still has length 0, compares equal to the default handle, and
answers none to both split operations. -/
theorem claim_len1_rest_shared {T : Type} [DecidableEq T] (s : ArcSlice T)
    (hwf : s.wfb = true) (hL : s.len = 1) :
    (∃ e rest buf st, s.arc_slice_split_first = some (e, rest) ∧
       rest.inner = ArcSliceInner.Shared buf st st ∧
       rest.len = 0 ∧
       ArcSlice.eq rest ArcSlice.defaultHandle = true ∧
       rest.arc_slice_split_first = none ∧
       rest.arc_slice_split_last = none) ∧
    (∃ e rest buf st, s.arc_slice_split_last = some (e, rest) ∧
       rest.inner = ArcSliceInner.Shared buf st st ∧
       rest.len = 0 ∧
       ArcSlice.eq rest ArcSlice.defaultHandle = true ∧
       rest.arc_slice_split_first = none ∧
       rest.arc_slice_split_last = none) := by
  rcases s with ⟨inner⟩
  rcases inner with _ | ⟨buf, st, sp⟩
  · exact absurd hL (by simp [ArcSlice.len, ArcSlice.raw_inner_slice])
  · have hb : st ≤ sp ∧ sp ≤ buf.length := of_decide_eq_true hwf
    have hlen : (sliceRange buf st sp).length = sp - st :=
      sliceRange_length hb.1 hb.2
    have hL2 : (sliceRange buf st sp).length = 1 := hL
    have hsp : sp = st + 1 := by omega
    subst hsp
    have hpos : 0 < (ArcSlice.mk (.Shared buf st (st + 1))).len := by
      rw [hL]
      omega
    constructor
    · obtain ⟨e, rest, hsf, hcons⟩ := ArcSlice.split_first_total hpos
      obtain ⟨hlt, hrest⟩ := ArcSlice.split_first_lt hsf
      subst hrest
      have hraw : (ArcSlice.mk
          (.Shared buf (st + 1) (st + 1))).raw_inner_slice = [] :=
        sliceRange_empty_of_ge (Nat.le_refl _)
      refine ⟨e, _, buf, st + 1, hsf, rfl, ?_, ?_, ?_, ?_⟩
      · unfold ArcSlice.len
        rw [hraw]
        rfl
      · unfold ArcSlice.eq
        rw [decide_eq_true_eq, hraw]
        rfl
      · exact (ArcSlice.split_first_eq_none_iff _).mpr hraw
      · exact (ArcSlice.split_last_eq_none_iff _).mpr hraw
    · obtain ⟨e, rest, hsf, hcons⟩ := ArcSlice.split_last_total hwf hpos
      obtain ⟨hlt, hrest⟩ := ArcSlice.split_last_lt hsf
      rw [Nat.add_sub_cancel] at hrest
      subst hrest
      have hraw : (ArcSlice.mk
          (.Shared buf st st)).raw_inner_slice = [] :=
        sliceRange_empty_of_ge (Nat.le_refl _)
      refine ⟨e, _, buf, st, hsf, rfl, ?_, ?_, ?_, ?_⟩
      · unfold ArcSlice.len
        rw [hraw]
        rfl
      · unfold ArcSlice.eq
        rw [decide_eq_true_eq, hraw]
        rfl
      · exact (ArcSlice.split_first_eq_none_iff _).mpr hraw
      · exact (ArcSlice.split_last_eq_none_iff _).mpr hraw

/-- Witness for claim C10 at the one-element shared slice over 7. -/
theorem claim_len1_rest_shared_witness :
    ((ArcSlice.fromArray [7] : ArcSlice Nat).wfb = true ∧
     (ArcSlice.fromArray [7] : ArcSlice Nat).len = 1) ∧
    ((∃ e rest buf st,
        (ArcSlice.fromArray [7] :
          ArcSlice Nat).arc_slice_split_first = some (e, rest) ∧
        rest.inner = ArcSliceInner.Shared buf st st ∧
        rest.len = 0 ∧
        ArcSlice.eq rest ArcSlice.defaultHandle = true ∧
        rest.arc_slice_split_first = none ∧
        rest.arc_slice_split_last = none) ∧
     (∃ e rest buf st,
        (ArcSlice.fromArray [7] :
          ArcSlice Nat).arc_slice_split_last = some (e, rest) ∧
        rest.inner = ArcSliceInner.Shared buf st st ∧
        rest.len = 0 ∧
        ArcSlice.eq rest ArcSlice.defaultHandle = true ∧
        rest.arc_slice_split_first = none ∧
        rest.arc_slice_split_last = none)) :=
  ⟨⟨by decide, by decide⟩,
   claim_len1_rest_shared (ArcSlice.fromArray [7])
     (by decide) (by decide)⟩

end LenOneRemainder

end ArcSliceLib
